import Mathlib

/-!
Shallow embedding of the tg-kinoclub-helper bot (Rust sources): the
shortlist storage (src/storage.rs), the TMDb catalog client retry loop,
search normalisation and trailer selection (src/tmdb.rs), and the
Telegram interaction flows (src/tg.rs).  Definitions are translated from
the source; definitions whose name starts with `spec` follow the
specification text and are compared against the source-derived ones.
-/

/-! ## Storage (src/storage.rs) -/

/-- `StoredMovie` from src/storage.rs. -/
structure StoredMovie where
  id : Nat
  title : String
  original_title : String
  poster_path : Option String
  release_date : Option String
deriving DecidableEq

/-- The `chats` map of `FileState`: chat id to movie list, defaulting to
the empty list for absent chats (`HashMap::get` / `or_default`). -/
abbrev Chats := Int → List StoredMovie

def emptyChats : Chats := fun _ => []

namespace Storage

/-- `Storage::get`: the list for a chat, empty when absent. -/
def get (chats : Chats) (chat_id : Int) : List StoredMovie :=
  chats chat_id

/-- `Storage::put`: wholesale replace, truncated to 10 entries; the
second component records that a durability flush happens. -/
def put (chats : Chats) (chat_id : Int) (movies : List StoredMovie) : Chats × Bool :=
  (fun c => if c = chat_id then movies.take 10 else chats c, true)

/-- `Storage::remove_chat`: drops a chat and flushes. -/
def remove_chat (chats : Chats) (chat_id : Int) : Chats × Bool :=
  (fun c => if c = chat_id then [] else chats c, true)

/-- `Storage::add_movie`: returns (added, new state, flushed).  The entry
is rejected when the id is already present or the list has 10 entries;
`flush` runs only when `added`. -/
def add_movie (chats : Chats) (chat_id : Int) (m : StoredMovie) : Bool × Chats × Bool :=
  let entry := chats chat_id
  if entry.any (fun x => x.id == m.id) then (false, chats, false)
  else if 10 ≤ entry.length then (false, chats, false)
  else (true, fun c => if c = chat_id then entry ++ [m] else chats c, true)

/-- `Storage::delete_movie`: `retain` keeps entries with a different id;
returns (removed, new state, flushed); `flush` runs only when `removed`. -/
def delete_movie (chats : Chats) (chat_id : Int) (movie_id : Nat) : Bool × Chats × Bool :=
  let list := chats chat_id
  let kept := list.filter (fun m => m.id != movie_id)
  if kept.length < list.length then
    (true, fun c => if c = chat_id then kept else chats c, true)
  else (false, fun c => if c = chat_id then kept else chats c, false)

end Storage

/-- The three spec-level mutating store operations of claim C1:
`insert` = `add_movie`, `deleteEntry` = `delete_movie`, `replace` = `put`. -/
inductive StoreOp where
  | insert (chat : Int) (m : StoredMovie)
  | deleteEntry (chat : Int) (id : Nat)
  | replace (chat : Int) (ms : List StoredMovie)
deriving DecidableEq

def applyOp (chats : Chats) : StoreOp → Chats
  | .insert chat m => (Storage.add_movie chats chat m).2.1
  | .deleteEntry chat id => (Storage.delete_movie chats chat id).2.1
  | .replace chat ms => (Storage.put chats chat ms).1

def applyOps (ops : List StoreOp) : Chats :=
  ops.foldl applyOp emptyChats

/-- An operation is a replace with pairwise-distinct ids, or not a
replace at all. -/
def replaceIdsNodup : StoreOp → Bool
  | .replace _ ms => decide (ms.map (fun m => m.id)).Nodup
  | _ => true

/-- The shortlist invariant of the spec: at most 10 entries per chat and
no duplicate ids. -/
def ChatsInv (chats : Chats) : Prop :=
  ∀ c, (chats c).length ≤ 10 ∧ ((chats c).map (fun m => m.id)).Nodup

/-! ## TMDb client (src/tmdb.rs) -/

/-- Error taxonomy `TmdbErr` from src/tmdb.rs. -/
inductive TmdbErr where
  | Net
  | RateLimited
  | Auth
  | Forbidden
  | NotFound
  | Server (code : Nat)
  | Unexpected (code : Nat)
deriving DecidableEq

/-- One attempt's observable outcome in `get_json`: a transport-level
send failure, an HTTP 200 whose body parses (or not), or a non-200
status code. -/
inductive Outcome where
  | transportErr
  | ok (parseOk : Bool)
  | status (code : Nat)
deriving DecidableEq

/-- How `get_json` reacts to one attempt: either exit the loop with a
result, or (when a backoff delay remains) retry, surfacing the recorded
error once the delays are exhausted. -/
inductive AttemptClass where
  | exit (r : Except TmdbErr Unit)
  | retryable (e : TmdbErr)

/-- Branch-for-branch translation of the `match resp.status()` in
`TmdbClient::get_json` (plus the send-error arm). -/
def classifyAttempt : Outcome → AttemptClass
  | .ok true => .exit (.ok ())
  | .ok false => .exit (.error .Net)
  | .transportErr => .retryable .Net
  | .status code =>
    if code = 429 then .retryable .RateLimited
    else if code = 401 then .exit (.error .Auth)
    else if code = 403 then .exit (.error .Forbidden)
    else if code = 404 then .exit (.error .NotFound)
    else if 500 ≤ code ∧ code ≤ 599 then .retryable (.Server code)
    else .exit (.error (.Unexpected code))

/-- The `get_json` retry loop.  `oc n` is the outcome of attempt `n`
(0-based); the delays list is the remaining backoff schedule.  Returns
(result, backoff delays actually slept, number of attempts made). -/
def getJsonGo (oc : Nat → Outcome) (attempt : Nat) :
    List Nat → Except TmdbErr Unit × List Nat × Nat
  | [] =>
    match classifyAttempt (oc attempt) with
    | .exit r => (r, [], attempt + 1)
    | .retryable e => (.error e, [], attempt + 1)
  | d :: rest =>
    match classifyAttempt (oc attempt) with
    | .exit r => (r, [], attempt + 1)
    | .retryable _ =>
      let r := getJsonGo oc (attempt + 1) rest
      (r.1, d :: r.2.1, r.2.2)

/-- `TmdbClient::get_json`: the loop started with the fixed schedule
`[300, 800, 1500]` milliseconds. -/
def getJson (oc : Nat → Outcome) : Except TmdbErr Unit × List Nat × Nat :=
  getJsonGo oc 0 [300, 800, 1500]

/-- `MediaKind` from src/tmdb.rs. -/
inductive MediaKind where
  | movie
  | tv
  | person
deriving DecidableEq

/-- `SearchMultiDto` from src/tmdb.rs: the tagged wire shape. -/
inductive SearchMultiDto where
  | movie (id : Nat) (title original_title overview : String)
      (poster_path release_date : Option String)
  | tv (id : Nat) (name original_name overview : String)
      (poster_path first_air_date : Option String)
  | person (id : Nat) (name : String) (profile_path : Option String)
deriving DecidableEq

/-- `MultiNorm` from src/tmdb.rs: the normalised catalog item. -/
structure MultiNorm where
  id : Nat
  media_type : MediaKind
  title : String
  original_title : String
  overview : String
  release_date : Option String
  image_path : Option String
deriving DecidableEq

/-- `impl From<SearchMultiDto> for MultiNorm`. -/
def SearchMultiDto.toMultiNorm : SearchMultiDto → MultiNorm
  | .movie id title original_title overview poster_path release_date =>
    ⟨id, .movie, title, original_title, overview, release_date, poster_path⟩
  | .tv id name original_name overview poster_path first_air_date =>
    ⟨id, .tv, name, original_name, overview, first_air_date, poster_path⟩
  | .person id name profile_path =>
    ⟨id, .person, name, name, "", none, profile_path⟩

/-- The filter predicate in `search_movies_ru`:
`matches!(item, Movie \x7b..\x7d | Tv \x7b..\x7d)`. -/
def SearchMultiDto.isTitleKind : SearchMultiDto → Bool
  | .movie .. => true
  | .tv .. => true
  | .person .. => false

/-- `TmdbClient::search_movies_ru` applied to an already-arrived
response body: filter to movie/tv, normalise, take `limit`. -/
def search_movies_ru (results : List SearchMultiDto) (limit : Nat) : List MultiNorm :=
  ((results.filter SearchMultiDto.isTitleKind).map SearchMultiDto.toMultiNorm).take limit

/-- `Video` DTO from src/tmdb.rs (`r#type` is rendered `vtype`). -/
structure Video where
  key : String
  site : String
  vtype : String
  official : Option Bool
deriving DecidableEq

/-- ASCII lower-casing of one character, as in Rust
`eq_ignore_ascii_case`. -/
def asciiLowerChar (c : Char) : Char :=
  if 'A' ≤ c ∧ c ≤ 'Z' then Char.ofNat (c.toNat + 32) else c

def eqIgnoreAsciiCase (a b : String) : Bool :=
  a.data.map asciiLowerChar == b.data.map asciiLowerChar

def isYouTube (v : Video) : Bool :=
  eqIgnoreAsciiCase v.site ("YouTube")

/-- The type component of the sort key in `best_trailer_url`. -/
def typeRank (t : String) : Nat :=
  if t = "Trailer" then 0 else if t = "Teaser" then 1 else 2

/-- The `sort_by_key` key: (official flag, type rank), lexicographic. -/
def sortKey (v : Video) : Nat × Nat :=
  (if v.official.getD false then 0 else 1, typeRank v.vtype)

def keyLe (a b : Nat × Nat) : Bool :=
  decide (a.1 < b.1 ∨ (a.1 = b.1 ∧ a.2 ≤ b.2))

/-- Stable insertion step: an element is placed before the first element
with a strictly greater key, after all elements with an equal key that
were originally earlier — the stability contract of Rust `sort_by_key`. -/
def insortVideo (v : Video) : List Video → List Video
  | [] => [v]
  | w :: ws =>
    if keyLe (sortKey v) (sortKey w) then v :: w :: ws else w :: insortVideo v ws

/-- Stable sort by `sortKey`, modelling `candidates.sort_by_key`. -/
def sortVideos : List Video → List Video
  | [] => []
  | v :: vs => insortVideo v (sortVideos vs)

/-- The selection part of `TmdbClient::best_trailer_url` (lines
199-218): filter to YouTube-hosted videos, stable-sort by key, take the
first and format its watch URL. -/
def bestTrailerSelect (all : List Video) : Option String :=
  ((sortVideos (all.filter isYouTube)).head?).map
    (fun v => "https://www.youtube.com/watch?v=" ++ v.key)

/-- Spec-side selection, following the specification's words: the first
(by original response order) site-hosted candidate whose key is minimal
among all site-hosted candidates. -/
def specSelect (all : List Video) : Option Video :=
  let cand := all.filter isYouTube
  cand.find? (fun v => cand.all (fun w => keyLe (sortKey v) (sortKey w)))

/-- The per-language collection loop of `best_trailer_url`: appends each
successful language's videos in order, records whether any query
succeeded and the most recent error. -/
def collectLangResults (rs : List (Except TmdbErr (List Video))) :
    List Video × Bool × Option TmdbErr :=
  rs.foldl
    (fun acc r =>
      match r with
      | .ok vs => (acc.1 ++ vs, true, acc.2.2)
      | .error e => (acc.1, acc.2.1, some e))
    ([], false, none)

/-- `TmdbClient::best_trailer_url` given the two language query results
(ru-RU first, en-US second): error with the last failure when both fail,
otherwise tie-break selection over the collected candidates. -/
def best_trailer_url (ru en : Except TmdbErr (List Video)) :
    Except TmdbErr (Option String) :=
  let c := collectLangResults [ru, en]
  if c.2.1 then .ok (bestTrailerSelect c.1) else .error (c.2.2.getD .Net)

/-! ## Telegram interaction flows (src/tg.rs) -/

/-- The `Movie` shape used by src/tg.rs for cached search results (the
fields read at its use sites; the spec calls it CatalogItem). -/
structure Movie where
  id : Nat
  title : String
  original_title : String
  overview : String
  poster_path : Option String
  release_date : Option String
deriving DecidableEq

/-- `LAST_SEARCH`: chat id to most recent search results. -/
abbrev SearchCache := Int → List Movie

/-- The `StoredMovie` built from a cached search result in the `add`
callback branch. -/
def storedOfMovie (m : Movie) : StoredMovie :=
  ⟨m.id, m.title, m.original_title, m.poster_path, m.release_date⟩

/-- The four user-visible outcomes of the `add` callback branch, one per
`answer_cb` message. -/
inductive AddFlowResult where
  | inserted
  | full
  | alreadyPresent
  | notFoundInSearch
deriving DecidableEq

/-- The `add` branch of `on_callback`: resolve the id against the last
search, call `add_movie`, and when not added re-check the stored length
to pick between the "already 10 movies" and "already present" replies.
Returns (outcome, new store state, flushed). -/
def add_flow (chats : Chats) (cache : SearchCache) (chat : Int) (id : Nat) :
    AddFlowResult × Chats × Bool :=
  match (cache chat).find? (fun m => m.id == id) with
  | none => (.notFoundInSearch, chats, false)
  | some m =>
    let r := Storage.add_movie chats chat (storedOfMovie m)
    if r.1 then (.inserted, r.2.1, r.2.2)
    else if 10 ≤ (Storage.get r.2.1 chat).length then (.full, r.2.1, r.2.2)
    else (.alreadyPresent, r.2.1, r.2.2)

/-- `data.splitn(2, ':')` on the character list: the part before the
first colon and, when a colon exists, the rest. -/
def splitAtColon : List Char → List Char × Option (List Char)
  | [] => ([], none)
  | c :: cs =>
    if c = ':' then ([], some cs)
    else
      let r := splitAtColon cs
      (c :: r.1, r.2)

/-- `splitn(2, ':')` with the `unwrap_or("")` defaults of `on_callback`. -/
def splitn2Colon (s : String) : String × String :=
  let r := splitAtColon s.data
  (String.mk r.1, String.mk (r.2.getD []))

/-- Rust `str::parse::<u64>`: optional leading plus sign, at least one
digit, decimal value below 2^64. -/
def parseU64 (s : String) : Option Nat :=
  let ds :=
    match s.data with
    | '+' :: rest => rest
    | l => l
  if ds.isEmpty then none
  else if ds.all (fun c => c.isDigit) then
    let v := ds.foldl (fun a c => a * 10 + (c.toNat - '0'.toNat)) 0
    if v < 2 ^ 64 then some v else none
  else none

/-- Where `on_callback` routes a callback token: silently return (bad
id), acknowledge with a message (unknown action), or run one of the
three actions. -/
inductive CbRoute where
  | silentIgnore
  | ack (msg : String)
  | add (id : Nat)
  | del (id : Nat)
  | show (id : Nat)
deriving DecidableEq

/-- Token parsing and dispatch of `on_callback` (lines 163-168, 225). -/
def on_callback_route (data : String) : CbRoute :=
  let p := splitn2Colon data
  match parseU64 p.2 with
  | none => .silentIgnore
  | some id =>
    if p.1 = "add" then .add id
    else if p.1 = "del" then .del id
    else if p.1 = "show" then .show id
    else .ack ("Неизвестная команда")

/-- The effect of a routed callback on the shortlist store and the
search cache (`show`, `ack` and the silent return touch neither; no
callback branch writes the search cache). -/
def cb_apply (chats : Chats) (cache : SearchCache) (chat : Int) :
    CbRoute → Chats × SearchCache
  | .add id => ((add_flow chats cache chat id).2.1, cache)
  | .del id => ((Storage.delete_movie chats chat id).2.1, cache)
  | _ => (chats, cache)

/-- Rust `&str::get(..4)` modelled on the character list: consume
characters while their UTF-8 sizes fit the byte budget; succeed exactly
when the budget is consumed at a character boundary. -/
def takeBytes : List Char → Nat → Option (List Char)
  | _, 0 => some []
  | [], _ + 1 => none
  | c :: cs, n + 1 =>
    if c.utf8Size ≤ n + 1 then (takeBytes cs (n + 1 - c.utf8Size)).map (fun l => c :: l)
    else none

/-- `m.release_date.as_ref().and_then(|d| d.get(..4))`. -/
def yearOf (d : String) : Option String :=
  (takeBytes d.data 4).map String.mk

/-- `one_line_title_stored` from src/tg.rs. -/
def one_line_title_stored (m : StoredMovie) : String :=
  match m.release_date.bind yearOf with
  | some y => m.title ++ " (" ++ y ++ ")"
  | none => m.title

/-- Spec-side poll option format: title plus parenthesised year (the
first four characters of the ISO-like date) when a release date is
known. -/
def specOptionFormat (m : StoredMovie) : String :=
  match m.release_date with
  | some d => m.title ++ " (" ++ String.mk (d.data.take 4) ++ ")"
  | none => m.title

/-- A stored movie's release date, when present, starts with a
four-character ASCII year — the shape the spec's ISO-like `YYYY-MM-DD`
dates guarantee. -/
def isoYearOk (m : StoredMovie) : Bool :=
  match m.release_date with
  | none => true
  | some d => decide (4 ≤ d.data.length) && (d.data.take 4).all (fun c => c.utf8Size == 1)

/-- Outcome of the poll-composition part of `run_vote_flow`. -/
inductive VoteOutcome where
  | needAtLeastTwo
  | poll (question : String) (options : List String)
deriving DecidableEq

/-- `run_vote_flow` (lines 248-257): fewer than two stored movies sends
the "need at least 2" notice; otherwise a poll is sent with one option
per stored movie. -/
def run_vote_flow_poll (list : List StoredMovie) : VoteOutcome :=
  if list.length < 2 then .needAtLeastTwo
  else .poll ("Что смотрим?") (list.map one_line_title_stored)

/-- `split_by_chars`'s accumulation loop over the characters: `cur` is
the chunk being built; when it reaches `max` characters it is emitted
and the current character starts a fresh chunk. -/
def split_go (max : Nat) : List Char → List Char → List (List Char)
  | [], cur => if cur.isEmpty then [] else [cur]
  | c :: cs, cur =>
    if max ≤ cur.length then cur :: split_go max cs [c]
    else split_go max cs (cur ++ [c])

/-- `split_by_chars` from src/tg.rs. -/
def split_by_chars (s : String) (max : Nat) : List String :=
  if s.data.length ≤ max then [s]
  else (split_go max s.data []).map String.mk

/-! ## Theorems: shortlist store (C1, C4, C5) -/

theorem emptyChats_inv : ChatsInv emptyChats := by
  intro c
  simp [emptyChats]

theorem updated_inv (chats : Chats) (chat : Int) (v : List StoredMovie)
    (hinv : ChatsInv chats) (hlen : v.length ≤ 10)
    (hnd : (v.map (fun m => m.id)).Nodup) :
    ChatsInv (fun c => if c = chat then v else chats c) := by
  intro c
  by_cases hc : c = chat
  · exact ⟨by simpa [hc] using hlen, by simpa [hc] using hnd⟩
  · simpa [hc] using hinv c

theorem applyOp_inv (chats : Chats) (op : StoreOp) (hinv : ChatsInv chats)
    (hop : replaceIdsNodup op = true) : ChatsInv (applyOp chats op) := by
  cases op with
  | insert chat m =>
    simp only [applyOp, Storage.add_movie]
    by_cases h1 : (chats chat).any (fun x => x.id == m.id)
    · simpa [h1] using hinv
    · by_cases h2 : 10 ≤ (chats chat).length
      · simp only [h1, Bool.false_eq_true, if_false, if_pos h2]
        exact hinv
      · simp only [h1, Bool.false_eq_true, if_false, if_neg h2]
        refine updated_inv chats chat _ hinv ?_ ?_
        · simp only [List.length_append, List.length_cons, List.length_nil]
          have := (hinv chat).1
          omega
        · rw [List.map_append, List.nodup_append]
          refine ⟨(hinv chat).2, by simp, ?_⟩
          intro a ha hb
          simp only [List.map_cons, List.map_nil, List.mem_singleton] at hb
          subst hb
          rcases List.mem_map.mp ha with ⟨x, hx, hxid⟩
          exact h1 (List.any_eq_true.mpr ⟨x, hx, beq_iff_eq.mpr hxid⟩)
  | deleteEntry chat id =>
    simp only [applyOp, Storage.delete_movie]
    have hsub : List.Sublist ((chats chat).filter (fun m => m.id != id)) (chats chat) :=
      List.filter_sublist _
    have hlen : ((chats chat).filter (fun m => m.id != id)).length ≤ 10 :=
      le_trans hsub.length_le (hinv chat).1
    have hnd : (((chats chat).filter (fun m => m.id != id)).map (fun m => m.id)).Nodup :=
      ((hinv chat).2).sublist (hsub.map _)
    by_cases h1 : ((chats chat).filter (fun m => m.id != id)).length < (chats chat).length
    · simp only [if_pos h1]
      exact updated_inv chats chat _ hinv hlen hnd
    · simp only [if_neg h1]
      exact updated_inv chats chat _ hinv hlen hnd
  | replace chat ms =>
    simp only [applyOp, Storage.put]
    have hms : (ms.map (fun m => m.id)).Nodup := of_decide_eq_true hop
    refine updated_inv chats chat _ hinv ?_ ?_
    · simp only [List.length_take]
      omega
    · exact hms.sublist ((List.take_sublist _ _).map _)

theorem foldl_applyOp_inv (ops : List StoreOp) :
    ∀ chats : Chats, ChatsInv chats →
      (∀ op ∈ ops, replaceIdsNodup op = true) → ChatsInv (ops.foldl applyOp chats) := by
  induction ops with
  | nil => intro chats h _; exact h
  | cons op rest ih =>
    intro chats h hops
    simp only [List.foldl_cons]
    exact ih _ (applyOp_inv chats op h (hops op (List.mem_cons_self _ _)))
      (fun o ho => hops o (List.mem_cons_of_mem _ ho))

def mA : StoredMovie := ⟨1, "A", "A", none, none⟩
def mB : StoredMovie := ⟨1, "B", "B", none, none⟩
def mC : StoredMovie := ⟨2, "C", "C", none, none⟩

/-- C1 counterexample: `replace` (= `Storage::put`) truncates to 10 but
does not de-duplicate ids, so a single replace with two same-id entries
makes `get` return duplicate ids, falsifying the claim as stated. -/
theorem C1_counterexample :
    Storage.get (applyOps [StoreOp.replace 0 [mA, mB]]) 0 = [mA, mB] ∧
    ¬ ((Storage.get (applyOps [StoreOp.replace 0 [mA, mB]]) 0).map
        (fun m => m.id)).Nodup := by
  decide

/-- The unconditional part of the shortlist invariant: at most 10
entries per chat, with no assumption on ids. -/
def ChatsLenInv (chats : Chats) : Prop :=
  ∀ c, (chats c).length ≤ 10

theorem emptyChats_len_inv : ChatsLenInv emptyChats := by
  intro c
  simp [emptyChats]

theorem updated_len_inv (chats : Chats) (chat : Int) (v : List StoredMovie)
    (hinv : ChatsLenInv chats) (hlen : v.length ≤ 10) :
    ChatsLenInv (fun c => if c = chat then v else chats c) := by
  intro c
  by_cases hc : c = chat
  · simpa [hc] using hlen
  · simpa [hc] using hinv c

theorem applyOp_len_inv (chats : Chats) (op : StoreOp) (hinv : ChatsLenInv chats) :
    ChatsLenInv (applyOp chats op) := by
  cases op with
  | insert chat m =>
    simp only [applyOp, Storage.add_movie]
    by_cases h1 : (chats chat).any (fun x => x.id == m.id)
    · simpa [h1] using hinv
    · by_cases h2 : 10 ≤ (chats chat).length
      · simp only [h1, Bool.false_eq_true, if_false, if_pos h2]
        exact hinv
      · simp only [h1, Bool.false_eq_true, if_false, if_neg h2]
        refine updated_len_inv chats chat _ hinv ?_
        simp only [List.length_append, List.length_cons, List.length_nil]
        have := hinv chat
        omega
  | deleteEntry chat id =>
    simp only [applyOp, Storage.delete_movie]
    have hlen : ((chats chat).filter (fun m => m.id != id)).length ≤ 10 :=
      le_trans (List.length_filter_le _ _) (hinv chat)
    by_cases h1 : ((chats chat).filter (fun m => m.id != id)).length < (chats chat).length
    · simp only [if_pos h1]
      exact updated_len_inv chats chat _ hinv hlen
    · simp only [if_neg h1]
      exact updated_len_inv chats chat _ hinv hlen
  | replace chat ms =>
    simp only [applyOp, Storage.put]
    refine updated_len_inv chats chat _ hinv ?_
    simp only [List.length_take]
    omega

theorem foldl_applyOp_len_inv (ops : List StoreOp) :
    ∀ chats : Chats, ChatsLenInv chats → ChatsLenInv (ops.foldl applyOp chats) := by
  induction ops with
  | nil => intro chats h; exact h
  | cons op rest ih =>
    intro chats h
    simp only [List.foldl_cons]
    exact ih _ (applyOp_len_inv chats op h)

/-- C1 (amended): after any sequence of insert/deleteEntry/replace
operations, `get` returns at most 10 entries, unconditionally; and when
every replace in the sequence supplies pairwise-distinct ids, the
returned entries also have no duplicate ids (insert and deleteEntry
need no side condition). -/
theorem C1_store_bound_nodup (ops : List StoreOp) (chat : Int) :
    (Storage.get (applyOps ops) chat).length ≤ 10 ∧
    ((∀ op ∈ ops, replaceIdsNodup op = true) →
      ((Storage.get (applyOps ops) chat).map (fun m => m.id)).Nodup) :=
  ⟨foldl_applyOp_len_inv ops emptyChats emptyChats_len_inv chat,
   fun hops => (foldl_applyOp_inv ops emptyChats emptyChats_inv hops chat).2⟩

/-- C1 witness: the unconditional length bound on a sequence containing
a duplicate-id replace, and the nodup conclusion on a concrete
distinct-id sequence. -/
theorem C1_store_bound_nodup_witness :
    (Storage.get (applyOps [StoreOp.replace 0 [mA, mB], StoreOp.insert 0 mC]) 0).length ≤ 10 ∧
    ((Storage.get (applyOps
        [StoreOp.insert 0 mA, StoreOp.replace 0 [mA, mC],
         StoreOp.deleteEntry 0 2, StoreOp.insert 0 mC]) 0).map
        (fun m => m.id)).Nodup :=
  ⟨(C1_store_bound_nodup [StoreOp.replace 0 [mA, mB], StoreOp.insert 0 mC] 0).1,
   (C1_store_bound_nodup
      [StoreOp.insert 0 mA, StoreOp.replace 0 [mA, mC],
       StoreOp.deleteEntry 0 2, StoreOp.insert 0 mC] 0).2 (by decide)⟩

/-- C5: a no-op store mutation — `add_movie` returning `false` (already
present or full) or `delete_movie` returning `false` (not found) —
leaves every conversation's stored sequence unchanged and does not
trigger a durability flush. -/
theorem C5_noop_no_write (chats : Chats) (chat : Int) (m : StoredMovie) (id : Nat) :
    ((Storage.add_movie chats chat m).1 = false →
      (Storage.add_movie chats chat m).2.1 = chats ∧
      (Storage.add_movie chats chat m).2.2 = false) ∧
    ((Storage.delete_movie chats chat id).1 = false →
      (∀ c, (Storage.delete_movie chats chat id).2.1 c = chats c) ∧
      (Storage.delete_movie chats chat id).2.2 = false) := by
  constructor
  · intro h
    simp only [Storage.add_movie] at h ⊢
    by_cases h1 : (chats chat).any (fun x => x.id == m.id)
    · simp [h1]
    · by_cases h2 : 10 ≤ (chats chat).length
      · simp [h1, h2]
      · simp [h1, h2] at h
  · intro h
    simp only [Storage.delete_movie] at h ⊢
    by_cases h1 : ((chats chat).filter (fun m => m.id != id)).length < (chats chat).length
    · simp [h1] at h
    · have hlen : ((chats chat).filter (fun m => m.id != id)).length = (chats chat).length :=
        le_antisymm (List.length_filter_le _ _) (le_of_not_lt h1)
      have hself : (chats chat).filter (fun m => m.id != id) = chats chat :=
        List.filter_eq_self.mpr (List.filter_length_eq_length.mp hlen)
      refine ⟨fun c => ?_, by simp [h1]⟩
      by_cases hc : c = chat
      · subst hc; simp [h1, hself]
      · simp [h1, hc]

def chatsOne : Chats := fun c => if c = 0 then [mA] else []

/-- C5 witness: re-inserting an already-present id and deleting an
absent id on a concrete store. -/
theorem C5_noop_no_write_witness :
    ((Storage.add_movie chatsOne 0 mA).2.1 = chatsOne ∧
     (Storage.add_movie chatsOne 0 mA).2.2 = false) ∧
    ((Storage.delete_movie chatsOne 0 9).2.1 0 = chatsOne 0 ∧
     (Storage.delete_movie chatsOne 0 9).2.2 = false) :=
  ⟨(C5_noop_no_write chatsOne 0 mA 9).1 (by decide),
   ⟨((C5_noop_no_write chatsOne 0 mA 9).2 (by decide)).1 0,
    ((C5_noop_no_write chatsOne 0 mA 9).2 (by decide)).2⟩⟩

/-- C4 (amended): resolving the token against the last search and
inserting gives four outcomes: an unresolved token is "not found in
last search"; with the list already at 10 entries the surfaced reason is
Full even when the id is also already present; a present id with a
non-full list surfaces AlreadyPresent; otherwise the entry is appended
and persisted and the outcome is Inserted.  The four outcomes are
distinct constructors of `AddFlowResult`. -/
theorem C4_add_flow_cases (chats : Chats) (cache : SearchCache) (chat : Int) (id : Nat) :
    ((cache chat).find? (fun m => m.id == id) = none →
      add_flow chats cache chat id = (.notFoundInSearch, chats, false)) ∧
    (∀ mv, (cache chat).find? (fun m => m.id == id) = some mv →
      ((10 ≤ (chats chat).length →
          (add_flow chats cache chat id).1 = .full ∧
          (add_flow chats cache chat id).2.1 = chats ∧
          (add_flow chats cache chat id).2.2 = false) ∧
       ((chats chat).length < 10 →
          (chats chat).any (fun x => x.id == mv.id) = true →
          (add_flow chats cache chat id).1 = .alreadyPresent ∧
          (add_flow chats cache chat id).2.1 = chats ∧
          (add_flow chats cache chat id).2.2 = false) ∧
       ((chats chat).length < 10 →
          (chats chat).any (fun x => x.id == mv.id) = false →
          (add_flow chats cache chat id).1 = .inserted ∧
          (add_flow chats cache chat id).2.1 chat = chats chat ++ [storedOfMovie mv] ∧
          (∀ c, c ≠ chat → (add_flow chats cache chat id).2.1 c = chats c) ∧
          (add_flow chats cache chat id).2.2 = true))) := by
  constructor
  · intro hfind
    simp [add_flow, hfind]
  · intro mv hfind
    refine ⟨?_, ?_, ?_⟩
    · intro hlen
      by_cases h1 : (chats chat).any (fun x => x.id == (storedOfMovie mv).id)
      · simp [add_flow, hfind, Storage.add_movie, Storage.get, h1, hlen]
      · simp [add_flow, hfind, Storage.add_movie, Storage.get, h1, hlen]
    · intro hlen hdup
      have h1 : (chats chat).any (fun x => x.id == (storedOfMovie mv).id) = true := by
        simpa [storedOfMovie] using hdup
      simp [add_flow, hfind, Storage.add_movie, Storage.get, h1, not_le.mpr hlen]
    · intro hlen hdup
      have h1 : ¬ (chats chat).any (fun x => x.id == (storedOfMovie mv).id) = true := by
        simpa [storedOfMovie] using hdup
      simp only [add_flow, hfind, Storage.add_movie, Storage.get, h1,
        Bool.false_eq_true, if_false, if_neg (not_le.mpr hlen)]
      refine ⟨rfl, by simp, fun c hc => ?_, rfl⟩
      simp [hc]

def tenMovies : List StoredMovie :=
  (List.range 10).map (fun i => ⟨i + 1, "T", "T", none, none⟩)

def chatsTen : Chats := fun c => if c = 0 then tenMovies else []

def cacheOne : SearchCache := fun c => if c = 0 then [⟨1, "T", "T", "", none, none⟩] else []

/-- C4 counterexample: with 10 stored entries one of which has id 1, the
add flow for id 1 surfaces Full, not AlreadyPresent, although an entry
with the same id already exists — the flow checks fullness first. -/
theorem C4_counterexample :
    (chatsTen 0).any (fun x => x.id == 1) = true ∧
    (add_flow chatsTen cacheOne 0 1).1 = .full ∧
    (add_flow chatsTen cacheOne 0 1).1 ≠ .alreadyPresent := by
  decide

def mvFive : Movie := ⟨5, "F", "F", "", none, none⟩

def cacheFive : SearchCache := fun c => if c = 0 then [mvFive] else []

/-- C4 witness: a successful insert through the flow on a concrete
store and cache. -/
theorem C4_add_flow_cases_witness :
    (add_flow emptyChats cacheFive 0 5).1 = .inserted ∧
    (add_flow emptyChats cacheFive 0 5).2.2 = true :=
  ⟨(((C4_add_flow_cases emptyChats cacheFive 0 5).2 mvFive (by decide)).2.2
      (by decide) (by decide)).1,
   (((C4_add_flow_cases emptyChats cacheFive 0 5).2 mvFive (by decide)).2.2
      (by decide) (by decide)).2.2.2⟩

/-! ## Theorems: retry policy (C2) -/

theorem getJsonGo_attempts_le (oc : Nat → Outcome) :
    ∀ (delays : List Nat) (attempt : Nat),
      (getJsonGo oc attempt delays).2.2 ≤ attempt + delays.length + 1 := by
  intro delays
  induction delays with
  | nil =>
    intro attempt
    simp only [getJsonGo]
    cases classifyAttempt (oc attempt) with
    | exit r => simp
    | retryable e => simp
  | cons d rest ih =>
    intro attempt
    simp only [getJsonGo]
    cases classifyAttempt (oc attempt) with
    | exit r => simp
    | retryable e =>
      have h := ih (attempt + 1)
      simp only [List.length_cons]
      omega

def ocThree500 : Nat → Outcome := fun n => if n < 3 then .status 500 else .ok true

/-- C2 counterexample: with 500 on the first three attempts and success
on the fourth, `get_json` makes a fourth attempt (after all three
backoff delays 300/800/1500 ms) and returns the success — more than the
claimed "up to 3 attempts total". -/
theorem C2_counterexample :
    getJson ocThree500 = (.ok (), [300, 800, 1500], 4) ∧
    ¬ (getJson ocThree500).2.2 ≤ 3 :=
  ⟨rfl, by decide⟩

/-- C2 (amended): every remote call makes up to 4 attempts total (one
initial attempt plus one retry per backoff delay 300, 800, 1500 ms).  A
call failing with 500 on attempts 1-2 and succeeding on attempt 3
returns the success after exactly the two delays 300 and 800 ms; a 401
fails immediately on attempt 1 with no delay; when all four attempts
hit retryable conditions, the last attempt's error kind is surfaced
after all three delays. -/
theorem C2_retry_policy :
    (∀ oc : Nat → Outcome, (getJson oc).2.2 ≤ 4) ∧
    (∀ oc : Nat → Outcome, oc 0 = .status 500 → oc 1 = .status 500 → oc 2 = .ok true →
      getJson oc = (.ok (), [300, 800], 3)) ∧
    (∀ oc : Nat → Outcome, oc 0 = .status 401 →
      getJson oc = (.error .Auth, [], 1)) ∧
    (∀ (oc : Nat → Outcome) (e : TmdbErr),
      (∀ i, i < 3 → ∃ ei, classifyAttempt (oc i) = .retryable ei) →
      classifyAttempt (oc 3) = .retryable e →
      getJson oc = (.error e, [300, 800, 1500], 4)) := by
  refine ⟨?_, ?_, ?_, ?_⟩
  · intro oc
    have h := getJsonGo_attempts_le oc [300, 800, 1500] 0
    simpa [getJson] using h
  · intro oc h0 h1 h2
    simp [getJson, getJsonGo, h0, h1, h2, classifyAttempt]
  · intro oc h0
    simp [getJson, getJsonGo, h0, classifyAttempt]
  · intro oc e hretry h3
    obtain ⟨e0, h0⟩ := hretry 0 (by omega)
    obtain ⟨e1, h1⟩ := hretry 1 (by omega)
    obtain ⟨e2, h2⟩ := hretry 2 (by omega)
    simp [getJson, getJsonGo, h0, h1, h2, h3]

def ocTwo500 : Nat → Outcome := fun n => if n < 2 then .status 500 else .ok true

/-- C2 witness: the 500/500/success scenario at a concrete outcome
sequence. -/
theorem C2_retry_policy_witness :
    getJson ocTwo500 = (.ok (), [300, 800], 3) :=
  C2_retry_policy.2.1 ocTwo500 (by decide) (by decide) (by decide)

/-! ## Theorems: search normalisation (C3) -/

theorem toMultiNorm_not_person (dto : SearchMultiDto) (h : dto.isTitleKind = true) :
    dto.toMultiNorm.media_type ≠ .person := by
  cases dto <;> simp_all [SearchMultiDto.isTitleKind, SearchMultiDto.toMultiNorm]

def personDto : SearchMultiDto := .person 7 ("X") none

/-- C3 counterexample: a Person search result is dropped by
`search_movies_ru` itself — it never reaches the caller, so the drop
decision is not "left to the caller" as claimed. -/
theorem C3_counterexample :
    search_movies_ru [personDto] 10 = [] ∧
    personDto.toMultiNorm ∉ search_movies_ru [personDto] 10 := by
  decide

/-- C3 (amended): `search_movies_ru` itself filters out Person results
and returns the remaining items kind-tagged: the output has at most
`limit` items, an empty remote result yields the empty sequence (never
an error — the function is total on arrived responses), no returned
item is a Person, and every returned item is the normalisation of some
movie/tv input item. -/
theorem C3_search_shape (results : List SearchMultiDto) (limit : Nat) :
    (search_movies_ru results limit).length ≤ limit ∧
    (results = [] → search_movies_ru results limit = []) ∧
    (∀ x ∈ search_movies_ru results limit, x.media_type ≠ .person) ∧
    (∀ x ∈ search_movies_ru results limit,
      ∃ dto, dto ∈ results ∧ dto.isTitleKind = true ∧ x = dto.toMultiNorm) := by
  refine ⟨?_, ?_, ?_, ?_⟩
  · simp only [search_movies_ru, List.length_take]
    omega
  · intro h
    subst h
    simp [search_movies_ru]
  · intro x hx
    simp only [search_movies_ru] at hx
    rcases List.mem_map.mp (List.mem_of_mem_take hx) with ⟨dto, hdto, hxd⟩
    subst hxd
    exact toMultiNorm_not_person dto (List.mem_filter.mp hdto).2
  · intro x hx
    simp only [search_movies_ru] at hx
    rcases List.mem_map.mp (List.mem_of_mem_take hx) with ⟨dto, hdto, hxd⟩
    exact ⟨dto, (List.mem_filter.mp hdto).1, (List.mem_filter.mp hdto).2, hxd.symm⟩

def movieDto : SearchMultiDto := .movie 3 ("M") ("M") ("o") none none

/-- C3 witness: a concrete response containing a movie and a person. -/
theorem C3_search_shape_witness :
    (search_movies_ru [movieDto, personDto] 5).length ≤ 5 ∧
    movieDto.toMultiNorm.media_type ≠ .person :=
  ⟨(C3_search_shape [movieDto, personDto] 5).1,
   (C3_search_shape [movieDto, personDto] 5).2.2.1 movieDto.toMultiNorm (by decide)⟩

/-! ## Theorems: trailer selection (C6, C7) -/

theorem keyLe_refl (a : Nat × Nat) : keyLe a a = true := by
  simp [keyLe]

theorem keyLe_total (a b : Nat × Nat) (h : keyLe a b = false) : keyLe b a = true := by
  simp only [keyLe, decide_eq_false_iff_not, decide_eq_true_eq] at h ⊢
  omega

theorem keyLe_trans (a b c : Nat × Nat) (h1 : keyLe a b = true) (h2 : keyLe b c = true) :
    keyLe a c = true := by
  simp only [keyLe, decide_eq_true_eq] at h1 h2 ⊢
  omega

/-- The stable minimum of a video list: the earliest element whose sort
key is minimal. -/
def stableMin : List Video → Option Video
  | [] => none
  | v :: vs =>
    match stableMin vs with
    | none => some v
    | some w => if keyLe (sortKey v) (sortKey w) then some v else some w

theorem insortVideo_head (v : Video) (l : List Video) :
    (insortVideo v l).head? = some (match l.head? with
      | none => v
      | some w => if keyLe (sortKey v) (sortKey w) then v else w) := by
  cases l with
  | nil => rfl
  | cons w ws =>
    simp only [insortVideo]
    cases h : keyLe (sortKey v) (sortKey w) <;> simp [h]

theorem sortVideos_head (l : List Video) : (sortVideos l).head? = stableMin l := by
  induction l with
  | nil => rfl
  | cons v vs ih =>
    simp only [sortVideos, stableMin, insortVideo_head, ih]
    cases h : stableMin vs with
    | none => rfl
    | some w =>
      by_cases hk : keyLe (sortKey v) (sortKey w) = true
      · simp [hk]
      · simp [hk]

theorem stableMin_eq_none (l : List Video) (h : stableMin l = none) : l = [] := by
  cases l with
  | nil => rfl
  | cons v vs =>
    simp only [stableMin] at h
    cases h' : stableMin vs with
    | none => simp [h'] at h
    | some w =>
      rw [h'] at h
      by_cases hk : keyLe (sortKey v) (sortKey w) = true <;> simp [hk] at h

theorem stableMin_mem (l : List Video) :
    ∀ w, stableMin l = some w → w ∈ l := by
  induction l with
  | nil => intro w h; simp [stableMin] at h
  | cons v vs ih =>
    intro w h
    simp only [stableMin] at h
    cases h' : stableMin vs with
    | none =>
      rw [h'] at h
      simp at h
      simp [h]
    | some u =>
      rw [h'] at h
      by_cases hk : keyLe (sortKey v) (sortKey u) = true
      · simp [hk] at h
        simp [h]
      · simp [hk] at h
        subst h
        exact List.mem_cons_of_mem _ (ih _ h')

theorem stableMin_min (l : List Video) :
    ∀ w, stableMin l = some w → ∀ u ∈ l, keyLe (sortKey w) (sortKey u) = true := by
  induction l with
  | nil => intro w h; simp [stableMin] at h
  | cons v vs ih =>
    intro w h u hu
    simp only [stableMin] at h
    cases h' : stableMin vs with
    | none =>
      have hvs : vs = [] := stableMin_eq_none vs h'
      rw [h'] at h
      simp at h
      subst hvs
      simp at hu
      rw [← h, hu]
      exact keyLe_refl _
    | some m =>
      rw [h'] at h
      by_cases hk : keyLe (sortKey v) (sortKey m) = true
      · simp [hk] at h
        rcases List.mem_cons.mp hu with h1 | h1
        · rw [← h, h1]
          exact keyLe_refl _
        · rw [← h]
          exact keyLe_trans _ _ _ hk (ih m h' u h1)
      · simp [hk] at h
        have hk' : keyLe (sortKey v) (sortKey m) = false := by
          cases hkk : keyLe (sortKey v) (sortKey m)
          · rfl
          · exact absurd hkk hk
        rcases List.mem_cons.mp hu with h1 | h1
        · rw [← h, h1]
          exact keyLe_total _ _ hk'
        · rw [← h]
          exact ih m h' u h1

theorem find?_congr_mem {α : Type} (l : List α) (p q : α → Bool)
    (h : ∀ a ∈ l, p a = q a) : l.find? p = l.find? q := by
  induction l with
  | nil => rfl
  | cons a l ih =>
    have ha := h a (List.mem_cons_self _ _)
    cases hq : q a with
    | true => simp [List.find?_cons, ha, hq]
    | false =>
      simp only [List.find?_cons, ha, hq]
      exact ih (fun b hb => h b (List.mem_cons_of_mem _ hb))

theorem stableMin_eq_find (l : List Video) :
    stableMin l = l.find? (fun v => l.all (fun w => keyLe (sortKey v) (sortKey w))) := by
  induction l with
  | nil => rfl
  | cons v vs ih =>
    simp only [stableMin]
    cases h' : stableMin vs with
    | none =>
      have hvs : vs = [] := stableMin_eq_none vs h'
      subst hvs
      simp [List.find?_cons, keyLe_refl]
    | some m =>
      by_cases hk : keyLe (sortKey v) (sortKey m) = true
      · have hall : (vs.all (fun w => keyLe (sortKey v) (sortKey w))) = true := by
          rw [List.all_eq_true]
          intro u hu
          exact keyLe_trans _ _ _ hk (stableMin_min vs m h' u hu)
        simp [List.find?_cons, hall, hk, keyLe_refl]
      · have hk' : keyLe (sortKey v) (sortKey m) = false := by
          cases hkk : keyLe (sortKey v) (sortKey m)
          · rfl
          · exact absurd hkk hk
        have hmv : keyLe (sortKey m) (sortKey v) = true := keyLe_total _ _ hk'
        have hall : ((v :: vs).all (fun w => keyLe (sortKey v) (sortKey w))) = false := by
          cases hallc : ((v :: vs).all (fun w => keyLe (sortKey v) (sortKey w)))
          · rfl
          · exfalso
            have hx := List.all_eq_true.mp hallc m
              (List.mem_cons_of_mem _ (stableMin_mem vs m h'))
            rw [hk'] at hx
            exact Bool.false_ne_true hx
        have hcongr :
            List.find? (fun u => (v :: vs).all (fun w => keyLe (sortKey u) (sortKey w))) vs
              = List.find? (fun u => vs.all (fun w => keyLe (sortKey u) (sortKey w))) vs := by
          apply find?_congr_mem
          intro u hu
          simp only [List.all_cons]
          cases hpu : vs.all (fun w => keyLe (sortKey u) (sortKey w)) with
          | true =>
            have hum : keyLe (sortKey u) (sortKey m) = true :=
              List.all_eq_true.mp hpu m (stableMin_mem vs m h')
            have huv : keyLe (sortKey u) (sortKey v) = true :=
              keyLe_trans _ _ _ hum hmv
            simp [huv]
          | false => simp
        simp only [List.find?_cons, hall, hk]
        rw [hcongr, ← ih, h']
        simp [hk]

def vid1 : Video := ⟨"k1", "YouTube", "Teaser", some false⟩
def vid2 : Video := ⟨"k2", "YouTube", "Trailer", some true⟩
def vid3 : Video := ⟨"k3", "YouTube", "Teaser", some true⟩

/-- C6: the selection in `best_trailer_url` (stable sort by
(official, type rank) and take the head) equals the spec's rule — the
first, by original response order, site-hosted candidate whose key is
minimal — mapped to its canonical watch URL, with nothing returned when
no YouTube-hosted video exists; and on the spec's concrete example
[unofficial Teaser, official Trailer, official Teaser] it selects the
official Trailer. -/
theorem C6_trailer_tiebreak :
    (∀ all : List Video, bestTrailerSelect all =
      (specSelect all).map (fun v => "https://www.youtube.com/watch?v=" ++ v.key)) ∧
    bestTrailerSelect [vid1, vid2, vid3] =
      some ("https://www.youtube.com/watch?v=" ++ vid2.key) := by
  constructor
  · intro all
    simp only [bestTrailerSelect, specSelect, sortVideos_head, stableMin_eq_find]
  · decide

/-- C7: the error handling of `best_trailer_url` over the two language
queries: both failing surfaces the second (last) failure's error kind;
when at least one language succeeds the call returns the tie-break
selection over the collected candidates, the failed language
contributing none. -/
theorem C7_trailer_errors :
    (∀ e1 e2 : TmdbErr, best_trailer_url (.error e1) (.error e2) = .error e2) ∧
    (∀ (vs : List Video) (e : TmdbErr),
      best_trailer_url (.ok vs) (.error e) = .ok (bestTrailerSelect vs)) ∧
    (∀ (e : TmdbErr) (vs : List Video),
      best_trailer_url (.error e) (.ok vs) = .ok (bestTrailerSelect vs)) ∧
    (∀ vs ws : List Video,
      best_trailer_url (.ok vs) (.ok ws) = .ok (bestTrailerSelect (vs ++ ws))) := by
  refine ⟨?_, ?_, ?_, ?_⟩ <;> intros <;> simp [best_trailer_url, collectLangResults]

/-! ## Theorems: vote flow (C8) -/

theorem takeBytes_ascii :
    ∀ (cs : List Char) (n : Nat), n ≤ cs.length →
      (∀ c ∈ cs.take n, c.utf8Size = 1) → takeBytes cs n = some (cs.take n) := by
  intro cs
  induction cs with
  | nil =>
    intro n hn _
    cases n with
    | zero => rfl
    | succ k => simp at hn
  | cons c cs ih =>
    intro n hn hall
    cases n with
    | zero => rfl
    | succ k =>
      have hc : c.utf8Size = 1 := hall c (by simp)
      simp only [takeBytes, hc]
      rw [if_pos (by omega)]
      have hsub : k + 1 - 1 = k := by omega
      rw [hsub]
      rw [ih k (by simpa using hn) (fun a ha => hall a (by simp [ha]))]
      rfl

theorem one_line_eq_spec (m : StoredMovie) (h : isoYearOk m = true) :
    one_line_title_stored m = specOptionFormat m := by
  unfold one_line_title_stored specOptionFormat
  cases hd : m.release_date with
  | none => rfl
  | some d =>
    unfold isoYearOk at h
    rw [hd] at h
    simp only [Bool.and_eq_true, decide_eq_true_eq, List.all_eq_true, beq_iff_eq] at h
    have ht : takeBytes d.data 4 = some (d.data.take 4) :=
      takeBytes_ascii d.data 4 h.1 h.2
    simp [yearOf, ht]

def vm1 : StoredMovie := ⟨1, "T1", "T1", none, some ("2001-05-06")⟩
def vm2 : StoredMovie := ⟨2, "T2", "T2", none, none⟩

/-- C8: `run_vote_flow` with fewer than 2 stored entries produces no
poll, only the "need at least 2" notice; with n ≥ 2 entries (whose
release dates, when present, are ISO-like, i.e. start with a
four-character ASCII year) it produces a poll with exactly one option
per entry, formatted "title (year)" when the release date is present
and "title" otherwise. -/
theorem C8_vote_poll (list : List StoredMovie) :
    (list.length < 2 → run_vote_flow_poll list = .needAtLeastTwo) ∧
    (2 ≤ list.length → (∀ m ∈ list, isoYearOk m = true) →
      run_vote_flow_poll list = .poll ("Что смотрим?") (list.map specOptionFormat) ∧
      (list.map specOptionFormat).length = list.length) := by
  constructor
  · intro h
    simp [run_vote_flow_poll, h]
  · intro h hiso
    constructor
    · simp only [run_vote_flow_poll, if_neg (by omega : ¬ list.length < 2)]
      congr 1
      exact List.map_congr_left (fun m hm => one_line_eq_spec m (hiso m hm))
    · simp

/-- C8 witness: a two-entry shortlist, one entry with a known release
date and one without. -/
theorem C8_vote_poll_witness :
    run_vote_flow_poll [vm1, vm2] = .poll ("Что смотрим?") ([vm1, vm2].map specOptionFormat) ∧
    ([vm1, vm2].map specOptionFormat).length = [vm1, vm2].length :=
  (C8_vote_poll [vm1, vm2]).2 (by decide) (by decide)

/-! ## Theorems: callback routing (C9) -/

/-- C9 counterexample: the token "add:x" has an id that fails to parse;
`on_callback` returns silently without any acknowledgment, not the
generic "unknown action" answer the claim requires for unparsable
tokens. -/
theorem C9_counterexample :
    on_callback_route ("add:x") = .silentIgnore ∧
    on_callback_route ("add:x") ≠ .ack ("Неизвестная команда") := by
  decide

/-- C9 (amended): a callback token is parsed as action tag and numeric
id separated by the first colon.  A token whose id part fails to parse
is ignored silently, with no acknowledgment; a token with a parsable id
but unknown action tag is answered with the generic "unknown action"
acknowledgment; in both cases neither the shortlist store nor the
search cache changes. -/
theorem C9_routing (data : String) (chats : Chats) (cache : SearchCache) (chat : Int) :
    (parseU64 (splitn2Colon data).2 = none → on_callback_route data = .silentIgnore) ∧
    (∀ id, parseU64 (splitn2Colon data).2 = some id →
      (splitn2Colon data).1 ≠ "add" → (splitn2Colon data).1 ≠ "del" →
      (splitn2Colon data).1 ≠ "show" →
      on_callback_route data = .ack ("Неизвестная команда")) ∧
    (on_callback_route data = .silentIgnore →
      cb_apply chats cache chat (on_callback_route data) = (chats, cache)) ∧
    (∀ msg, on_callback_route data = .ack msg →
      cb_apply chats cache chat (on_callback_route data) = (chats, cache)) := by
  refine ⟨?_, ?_, ?_, ?_⟩
  · intro h
    simp [on_callback_route, h]
  · intro id h ha hd hs
    simp [on_callback_route, h, ha, hd, hs]
  · intro h
    rw [h]
    rfl
  · intro msg h
    rw [h]
    rfl

/-- C9 witness: a concrete unknown-action token with a parsable id. -/
theorem C9_routing_witness :
    on_callback_route ("zzz:5") = .ack ("Неизвестная команда") ∧
    cb_apply emptyChats (fun _ => []) 0 (on_callback_route ("zzz:5")) =
      (emptyChats, fun _ => []) :=
  ⟨(C9_routing ("zzz:5") emptyChats (fun _ => []) 0).2.1 5 (by decide) (by decide)
      (by decide) (by decide),
   (C9_routing ("zzz:5") emptyChats (fun _ => []) 0).2.2.2 ("Неизвестная команда")
      (by decide)⟩

/-! ## Theorems: caption splitting (C10) -/

theorem split_go_flatten (max : Nat) :
    ∀ (cs cur : List Char), (split_go max cs cur).flatten = cur ++ cs := by
  intro cs
  induction cs with
  | nil =>
    intro cur
    by_cases h : cur.isEmpty
    · simp [split_go, h, List.isEmpty_iff.mp h]
    · simp [split_go, h]
  | cons c cs ih =>
    intro cur
    simp only [split_go]
    by_cases h : max ≤ cur.length
    · simp [h, ih]
    · simp [h, ih]

theorem split_go_chunk_le (max : Nat) (hmax : 1 ≤ max) :
    ∀ (cs cur : List Char), cur.length ≤ max →
      ∀ chunk ∈ split_go max cs cur, chunk.length ≤ max := by
  intro cs
  induction cs with
  | nil =>
    intro cur hcur chunk hchunk
    by_cases h : cur.isEmpty
    · simp [split_go, h] at hchunk
    · simp only [split_go, h, if_neg] at hchunk
      simp at hchunk
      rw [hchunk]
      exact hcur
  | cons c cs ih =>
    intro cur hcur chunk hchunk
    simp only [split_go] at hchunk
    by_cases h : max ≤ cur.length
    · rw [if_pos h] at hchunk
      rcases List.mem_cons.mp hchunk with h1 | h1
      · rw [h1]
        exact hcur
      · exact ih [c] (by simpa using hmax) chunk h1
    · rw [if_neg h] at hchunk
      exact ih (cur ++ [c]) (by simp; omega) chunk hchunk

/-- C10: for every string and chunk size of at least 1, `split_by_chars`
returns chunks of at most `max` characters each whose concatenation is
exactly the original string, and a string of at most `max` characters
comes back as the single chunk. -/
theorem C10_split_bound_concat (s : String) (max : Nat) (hmax : 1 ≤ max) :
    (∀ chunk ∈ split_by_chars s max, chunk.data.length ≤ max) ∧
    ((split_by_chars s max).map String.data).flatten = s.data ∧
    (s.data.length ≤ max → split_by_chars s max = [s]) := by
  refine ⟨?_, ?_, ?_⟩
  · intro chunk hchunk
    unfold split_by_chars at hchunk
    by_cases h : s.data.length ≤ max
    · rw [if_pos h] at hchunk
      simp at hchunk
      rw [hchunk]
      exact h
    · rw [if_neg h] at hchunk
      rcases List.mem_map.mp hchunk with ⟨l, hl, hchunk⟩
      rw [← hchunk]
      exact split_go_chunk_le max hmax s.data [] (by simp) l hl
  · unfold split_by_chars
    by_cases h : s.data.length ≤ max
    · rw [if_pos h]
      simp
    · rw [if_neg h]
      rw [List.map_map]
      have hcomp : (String.data ∘ String.mk) = id := rfl
      rw [hcomp, List.map_id]
      exact split_go_flatten max s.data []
  · intro h
    unfold split_by_chars
    rw [if_pos h]

/-- C10 witness: splitting a five-character string into chunks of two. -/
theorem C10_split_bound_concat_witness :
    (∀ chunk ∈ split_by_chars ("abcde") 2, chunk.data.length ≤ 2) ∧
    ((split_by_chars ("abcde") 2).map String.data).flatten = ("abcde").data :=
  ⟨(C10_split_bound_concat ("abcde") 2 (by decide)).1,
   (C10_split_bound_concat ("abcde") 2 (by decide)).2.1⟩
